import Mathlib

/-!
Verification of the thumbnailing endpoint (`src/main.rs`).

The source is a small Rust HTTP service: a query parser (`querify`,
`ThumbOptions::new`), a resize pipeline (`handle_thumbnail`) and a router
(`router`).  Strings are embedded as Lean `String` / `List Char`; Rust
panics (`unwrap`, `expect`, division by zero) are embedded as `none` of an
`Option` result.  The external image library (PNG codec, resampling
filters) is outside the repository: the nearest-neighbor filter is
modelled from the spec, and fetch/decode and PNG encoding are abstract
parameters of the pipeline.
-/

/-- A 4-channel (red, green, blue, alpha) pixel. -/
abbrev Pixel := Nat × Nat × Nat × Nat

/-- An in-memory decoded image: width, height and a pixel grid.
Coordinates outside `[0, width) × [0, height)` are irrelevant to the
claims, which only quantify over in-range coordinates. -/
structure Image where
  width : Nat
  height : Nat
  pixelAt : Nat → Nat → Pixel

/-- Rust's `str::split('&')` on the character list of the string:
`""` yields `[""]`, separators at the ends yield empty groups. -/
def splitOnChar (sep : Char) : List Char → List (List Char)
  | [] => [[]]
  | c :: rest =>
    let r := splitOnChar sep rest
    if c = sep then [] :: r
    else
      match r with
      | [] => [[c]]
      | g :: gs => (c :: g) :: gs

/-- Rust's `str::splitn(2, '=')` read through two `next()` calls: `none`
when the separator is absent (the source's `(Some(k), None)` case), and
otherwise the part before the first separator paired with everything
after it. -/
def splitFirst (sep : Char) : List Char → Option (List Char × List Char)
  | [] => none
  | c :: rest =>
    if c = sep then some ([], rest)
    else
      match splitFirst sep rest with
      | none => none
      | some (k, v) => some (c :: k, v)

/-- The `HashMap<String, String>` built by `querify`, restricted to the two
keys the source ever inserts (`"url"` and `"width"`). -/
structure QueryMap where
  url? : Option String
  width? : Option String
deriving DecidableEq, Repr

def QueryMap.empty : QueryMap := ⟨none, none⟩

/-- One iteration of `querify`'s loop body: split the pair on the first
`=`; insert under `url` or `width` (overwriting), ignore anything else. -/
def querifyStep (acc : QueryMap) (kv : List Char) : QueryMap :=
  match splitFirst '=' kv with
  | some (k, v) =>
    if k = "url".data then { acc with url? := some (String.mk v) }
    else if k = "width".data then { acc with width? := some (String.mk v) }
    else acc
  | none => acc

/-- `fn querify(string: &str) -> HashMap<String, String>` from the source:
split on `&`, fold the loop body over the pairs. -/
def querify (s : String) : QueryMap :=
  (splitOnChar '&' s.data).foldl querifyStep QueryMap.empty

/-- Rust's `str::parse::<u32>()`: an optional leading `+`, then at least
one ASCII digit, no other characters, value below `2^32`.  `none` is the
`Err` case (which the source immediately `unwrap`s). -/
def parseU32 (s : String) : Option Nat :=
  let ds := match s.data with
    | '+' :: rest => rest
    | l => l
  if ds = [] then none
  else if ds.all Char.isDigit then
    let n := ds.foldl (fun a c => a * 10 + (c.toNat - 48)) 0
    if n < 4294967296 then some n else none
  else none

/-- `struct ThumbOptions { url: String, width: u32 }`. -/
structure ThumbOptions where
  url : String
  width : Nat
deriving DecidableEq, Repr

/-- `ThumbOptions::new`: `url` defaults to `""`, `width` is parsed with
`unwrap` (embedded as `none` on parse failure) and defaults to `180`. -/
def ThumbOptions.new (opts : QueryMap) : Option ThumbOptions :=
  let url : String :=
    match opts.url? with
    | some val => val
    | none => ""
  match opts.width? with
  | some val =>
    match parseU32 val with
    | some width => some { url := url, width := width }
    | none => none
  | none => some { url := url, width := 180 }

/-- `impl From<&str> for ThumbOptions`: parse the query string, then build
the options record. -/
def ThumbOptions.fromQuery (query_params : String) : Option ThumbOptions :=
  ThumbOptions.new (querify query_params)

/-- Modelled from the spec: the nearest-neighbor resampling filter
(`image::imageops::resize` with `FilterType::Nearest`), which lives in the
external `image` crate, not in this repository.  Destination pixel
`(x, y)` samples source pixel `(x * srcW / dstW, y * srcH / dstH)`
(floor). -/
def resizeNearest (img : Image) (w h : Nat) : Image where
  width := w
  height := h
  pixelAt := fun x y => img.pixelAt (x * img.width / w) (y * img.height / h)

/-- The resize computation of `handle_thumbnail` (lines 76–83): `ratio =
original_width / width`, `height = original_height / ratio`, then the
nearest-neighbor resample.  Rust division by zero panics, embedded as the
two `none` branches. -/
def resizeStage (image : Image) (width : Nat) : Option Image :=
  if width = 0 then none
  else
    let ratio := image.width / width
    if ratio = 0 then none
    else some (resizeNearest image width (image.height / ratio))

/-- `handle_thumbnail`, with the external fetch+PNG-decode step and the
external PNG encoder as abstract parameters.  Every `unwrap`/`expect` on
the way is `none`. -/
def handle_thumbnail (fetchDecode : String → Option Image)
    (encodePng : Image → List Nat) (opts : ThumbOptions) : Option (List Nat) :=
  match fetchDecode opts.url with
  | none => none
  | some image =>
    match resizeStage image opts.width with
    | none => none
    | some resized => some (encodePng resized)

/-- HTTP methods (the source only distinguishes `GET` from the rest). -/
inductive Method where
  | GET | POST | PUT | DELETE | HEAD | PATCH | OPTIONS
deriving DecidableEq, Repr

/-- The parts of a `hyper::Request` the router looks at: method, URI path,
and the URI's optional query string. -/
structure HttpRequest where
  method : Method
  path : String
  query : Option String

/-- Outcome of handling one request: a structured response, or a task
abort (a Rust panic in one of the `unwrap`/`expect` calls). -/
inductive RouterOutcome where
  | response (status : Nat) (body : List Nat)
  | fatal
deriving DecidableEq, Repr

/-- `async fn router`: the two-arm match on `(method, path)`.  The
`GET /thumbnail` arm unwraps the query string, builds the options via
`From<&str>` and runs `handle_thumbnail`, returning a 200 response with
the bytes; the catch-all arm returns a default response with status 404
(empty body). -/
def router (fetchDecode : String → Option Image) (encodePng : Image → List Nat)
    (req : HttpRequest) : RouterOutcome :=
  if req.method = Method.GET ∧ req.path = "/thumbnail" then
    match req.query with
    | none => RouterOutcome.fatal
    | some q =>
      match ThumbOptions.fromQuery q with
      | none => RouterOutcome.fatal
      | some opts =>
        match handle_thumbnail fetchDecode encodePng opts with
        | none => RouterOutcome.fatal
        | some thumb => RouterOutcome.response 200 thumb
  else
    RouterOutcome.response 404 []

/-! ### Helper lemmas about splitting -/

theorem splitOnChar_ne_nil (sep : Char) (l : List Char) :
    splitOnChar sep l ≠ [] := by
  induction l with
  | nil => simp [splitOnChar]
  | cons c rest ih =>
    simp only [splitOnChar]
    split
    · simp
    · match h : splitOnChar sep rest with
      | [] => exact absurd h ih
      | g :: gs => simp

theorem splitOnChar_append (sep : Char) (xs ys : List Char) :
    splitOnChar sep (xs ++ sep :: ys) =
      splitOnChar sep xs ++ splitOnChar sep ys := by
  induction xs with
  | nil => simp [splitOnChar]
  | cons c xs ih =>
    rw [List.cons_append]
    simp only [splitOnChar, List.append_eq, ih]
    split
    · rfl
    · match h : splitOnChar sep xs with
      | [] => exact absurd h (splitOnChar_ne_nil sep xs)
      | g :: gs => simp [h]

theorem splitOnChar_no_sep (sep : Char) (l : List Char) (h : sep ∉ l) :
    splitOnChar sep l = [l] := by
  induction l with
  | nil => rfl
  | cons c rest ih =>
    simp only [List.mem_cons, not_or] at h
    have hc : ¬c = sep := fun hc => h.1 hc.symm
    simp only [splitOnChar, if_neg hc, ih h.2]

theorem splitFirst_key_value (sep : Char) (k v : List Char) (h : sep ∉ k) :
    splitFirst sep (k ++ sep :: v) = some (k, v) := by
  induction k with
  | nil => simp [splitFirst]
  | cons c k ih =>
    simp only [List.mem_cons, not_or] at h
    have hc : ¬c = sep := fun hc => h.1 hc.symm
    rw [List.cons_append]
    simp only [splitFirst, List.append_eq, if_neg hc, ih h.2]

theorem splitFirst_no_sep (sep : Char) (l : List Char) (h : sep ∉ l) :
    splitFirst sep l = none := by
  induction l with
  | nil => rfl
  | cons c rest ih =>
    simp only [List.mem_cons, not_or] at h
    have hc : ¬c = sep := fun hc => h.1 hc.symm
    simp only [splitFirst, if_neg hc, ih h.2]

/-- Joining pairs with `&`, the inverse direction of the router's split. -/
def joinAmp : List (List Char) → List Char
  | [] => []
  | [p] => p
  | p :: ps => p ++ '&' :: joinAmp ps

theorem splitOnChar_joinAmp (ps : List (List Char)) (hne : ps ≠ [])
    (hfree : ∀ p ∈ ps, '&' ∉ p) :
    splitOnChar '&' (joinAmp ps) = ps := by
  induction ps with
  | nil => exact absurd rfl hne
  | cons p ps ih =>
    match ps with
    | [] =>
      simp only [joinAmp]
      exact splitOnChar_no_sep '&' p (hfree p (by simp))
    | q :: ps' =>
      simp only [joinAmp, splitOnChar_append]
      rw [splitOnChar_no_sep '&' p (hfree p (by simp)),
        ih (by simp) (fun r hr => hfree r (List.mem_cons_of_mem p hr))]
      rfl

/-! ### Claim theorems -/

/-- Claim C1: for every decoded source image of width `W` and height `H`
and every target width `w` with `0 < w ≤ W`, the resize stage succeeds and
produces an image of width `w` and height `H / (W / w)`, both divisions
being floor divisions. -/
theorem c1_resize_dims (img : Image) (w : Nat) (hw : 0 < w)
    (hle : w ≤ img.width) :
    ∃ j, resizeStage img w = some j ∧ j.width = w ∧
      j.height = img.height / (img.width / w) := by
  have hw' : w ≠ 0 := Nat.pos_iff_ne_zero.mp hw
  have hr' : img.width / w ≠ 0 := Nat.pos_iff_ne_zero.mp (Nat.div_pos hle hw)
  exact ⟨resizeNearest img w (img.height / (img.width / w)),
    by simp [resizeStage, hw', hr'], rfl, rfl⟩

theorem c1_resize_dims_witness :
    ∃ j, resizeStage ⟨200, 100, fun _ _ => (0, 0, 0, 255)⟩ 90 = some j ∧
      j.width = 90 ∧ j.height = 100 / (200 / 90) :=
  c1_resize_dims ⟨200, 100, fun _ _ => (0, 0, 0, 255)⟩ 90 (by decide)
    (by decide)

/-- Claim C2: when `targetWidth` divides `originalWidth` evenly (all
positive), the output dimensions are
`(targetWidth, originalHeight / (originalWidth / targetWidth))` and this
height equals `originalHeight * targetWidth / originalWidth` exactly. -/
theorem c2_exact_ratio (img : Image) (w : Nat) (hW : 0 < img.width)
    (_hH : 0 < img.height) (hw : 0 < w) (hdvd : w ∣ img.width) :
    ∃ j, resizeStage img w = some j ∧ j.width = w ∧
      j.height = img.height / (img.width / w) ∧
      j.height = img.height * w / img.width := by
  have hle : w ≤ img.width := Nat.le_of_dvd hW hdvd
  have hw' : w ≠ 0 := Nat.pos_iff_ne_zero.mp hw
  have hr' : img.width / w ≠ 0 := Nat.pos_iff_ne_zero.mp (Nat.div_pos hle hw)
  have heq : img.height / (img.width / w) = img.height * w / img.width := by
    conv_rhs => rw [← Nat.div_mul_cancel hdvd]
    rw [Nat.mul_div_mul_right _ _ hw]
  exact ⟨resizeNearest img w (img.height / (img.width / w)),
    by simp [resizeStage, hw', hr'], rfl, rfl, heq⟩

theorem c2_exact_ratio_witness :
    ∃ j, resizeStage ⟨200, 120, fun _ _ => (0, 0, 0, 255)⟩ 50 = some j ∧
      j.width = 50 ∧ j.height = 120 / (200 / 50) ∧
      j.height = 120 * 50 / 200 :=
  c2_exact_ratio ⟨200, 120, fun _ _ => (0, 0, 0, 255)⟩ 50 (by decide)
    (by decide) (by decide) (by decide)

/-- Claim C6: `targetWidth = 0`, or `originalWidth < targetWidth` (zero
integer ratio), makes the resize computation fatal (a division fault,
embedded as `none`); under `0 < targetWidth ≤ originalWidth` no
division-by-zero branch is reachable and the stage succeeds. -/
theorem c6_degenerate_geometry (img : Image) (w : Nat) :
    (resizeStage img 0 = none) ∧
    (0 < w → img.width < w → resizeStage img w = none) ∧
    (0 < w → w ≤ img.width → ∃ j, resizeStage img w = some j) := by
  refine ⟨by simp [resizeStage], fun hw hlt => ?_, fun hw hle => ?_⟩
  · simp [resizeStage, Nat.pos_iff_ne_zero.mp hw, Nat.div_eq_of_lt hlt]
  · have hw' : w ≠ 0 := Nat.pos_iff_ne_zero.mp hw
    have hr' : img.width / w ≠ 0 := Nat.pos_iff_ne_zero.mp (Nat.div_pos hle hw)
    exact ⟨resizeNearest img w (img.height / (img.width / w)),
      by simp [resizeStage, hw', hr']⟩

theorem c6_degenerate_geometry_witness :
    (resizeStage ⟨100, 100, fun _ _ => (0, 0, 0, 255)⟩ 0 = none) ∧
    (resizeStage ⟨100, 100, fun _ _ => (0, 0, 0, 255)⟩ 101 = none) ∧
    (∃ j, resizeStage ⟨100, 100, fun _ _ => (0, 0, 0, 255)⟩ 50 = some j) :=
  ⟨(c6_degenerate_geometry ⟨100, 100, fun _ _ => (0, 0, 0, 255)⟩ 0).1,
   (c6_degenerate_geometry ⟨100, 100, fun _ _ => (0, 0, 0, 255)⟩ 101).2.1
     (by decide) (by decide),
   (c6_degenerate_geometry ⟨100, 100, fun _ _ => (0, 0, 0, 255)⟩ 50).2.2
     (by decide) (by decide)⟩

/-- Claim C3: `targetWidth` defaults to 180 when no `width` key is
present, `sourceUrl` defaults to `""` when no `url` key is present, and
when both keys are present with a well-formed width the url value is
taken verbatim and the width value is the parsed unsigned integer. -/
theorem c3_defaults_and_values (q : String) :
    (∀ o, ThumbOptions.fromQuery q = some o →
      ((querify q).width? = none → o.width = 180) ∧
      ((querify q).url? = none → o.url = "")) ∧
    (∀ u v n, (querify q).url? = some u → (querify q).width? = some v →
      parseU32 v = some n →
      ThumbOptions.fromQuery q = some { url := u, width := n }) := by
  constructor
  · intro o ho
    constructor
    · intro hw
      simp only [ThumbOptions.fromQuery, ThumbOptions.new, hw,
        Option.some.injEq] at ho
      rw [← ho]
    · intro hu
      simp only [ThumbOptions.fromQuery, ThumbOptions.new, hu] at ho
      cases hw : (querify q).width? with
      | none =>
        simp only [hw, Option.some.injEq] at ho
        rw [← ho]
      | some v =>
        simp only [hw] at ho
        cases hp : parseU32 v with
        | none => simp [hp] at ho
        | some n =>
          simp only [hp, Option.some.injEq] at ho
          rw [← ho]
  · intro u v n hu hw hp
    simp [ThumbOptions.fromQuery, ThumbOptions.new, hu, hw, hp]

theorem c3_defaults_and_values_witness :
    ThumbOptions.fromQuery "url=http://x/y.png&width=90"
      = some { url := "http://x/y.png", width := 90 } :=
  (c3_defaults_and_values "url=http://x/y.png&width=90").2
    "http://x/y.png" "90" 90 (by decide) (by decide) (by decide)

/-- Claim C4: the parser splits the query string on `&` and folds over
the pairs; each pair is split on the first `=` only, so later `=`
characters stay in the value, which is taken verbatim (no
percent-decoding); keys other than `url` and `width` are ignored, and
pairs lacking an `=` are ignored. -/
theorem c4_split_semantics :
    (∀ ps : List (List Char), ps ≠ [] → (∀ p ∈ ps, '&' ∉ p) →
      querify (String.mk (joinAmp ps))
        = ps.foldl querifyStep QueryMap.empty) ∧
    (∀ acc : QueryMap, ∀ k v : List Char, '=' ∉ k →
      querifyStep acc (k ++ '=' :: v) =
        if k = "url".data then { acc with url? := some (String.mk v) }
        else if k = "width".data then
          { acc with width? := some (String.mk v) }
        else acc) ∧
    (∀ acc : QueryMap, ∀ kv : List Char, '=' ∉ kv →
      querifyStep acc kv = acc) := by
  refine ⟨fun ps hne hfree => ?_, fun acc k v hk => ?_, fun acc kv hkv => ?_⟩
  · rw [querify,
      show (String.mk (joinAmp ps)).data = joinAmp ps from rfl,
      splitOnChar_joinAmp ps hne hfree]
  · rw [querifyStep, splitFirst_key_value '=' k v hk]
  · rw [querifyStep, splitFirst_no_sep '=' kv hkv]

theorem c4_split_semantics_witness :
    (querify (String.mk
        (joinAmp ["url=a".data, "junk=1".data, "width=2".data]))
      = ["url=a".data, "junk=1".data, "width=2".data].foldl querifyStep
          QueryMap.empty) ∧
    (querifyStep QueryMap.empty ("url".data ++ '=' :: "a=b%2F".data)
      = { QueryMap.empty with url? := some (String.mk "a=b%2F".data) }) ∧
    (querifyStep QueryMap.empty "noequals".data = QueryMap.empty) := by
  refine ⟨c4_split_semantics.1 _ (by decide) (by decide), ?_,
    c4_split_semantics.2.2 _ _ (by decide)⟩
  rw [c4_split_semantics.2.1 QueryMap.empty "url".data "a=b%2F".data
    (by decide)]
  decide

/-- Claim C5: when a `width` key is present whose value does not parse
as an unsigned integer, building the options is fatal (the `unwrap` on
the parse result panics) rather than falling back to the default 180. -/
theorem c5_bad_width_fatal (q v : String)
    (hw : (querify q).width? = some v) (hp : parseU32 v = none) :
    ThumbOptions.fromQuery q = none := by
  simp [ThumbOptions.fromQuery, ThumbOptions.new, hw, hp]

theorem c5_bad_width_fatal_witness :
    ThumbOptions.fromQuery "width=abc" = none :=
  c5_bad_width_fatal "width=abc" "abc" (by decide) (by decide)

/-- A pair whose key (the part before the first `=`, when any) is not
`url` leaves the stored `url` value untouched. -/
theorem querifyStep_url_frame (acc : QueryMap) (kv : List Char)
    (h : (splitFirst '=' kv).map Prod.fst ≠ some "url".data) :
    (querifyStep acc kv).url? = acc.url? := by
  cases hs : splitFirst '=' kv with
  | none => simp [querifyStep, hs]
  | some p =>
    obtain ⟨k, u⟩ := p
    rw [hs] at h
    have hk : ¬k = "url".data := by
      intro hk
      exact h (by rw [hk]; rfl)
    by_cases hw : k = "width".data
    · simp [querifyStep, hs, hk, hw]
    · simp [querifyStep, hs, hk, hw]

/-- A pair whose key is not `width` leaves the stored `width` value
untouched. -/
theorem querifyStep_width_frame (acc : QueryMap) (kv : List Char)
    (h : (splitFirst '=' kv).map Prod.fst ≠ some "width".data) :
    (querifyStep acc kv).width? = acc.width? := by
  cases hs : splitFirst '=' kv with
  | none => simp [querifyStep, hs]
  | some p =>
    obtain ⟨k, u⟩ := p
    rw [hs] at h
    have hw : ¬k = "width".data := by
      intro hw
      exact h (by rw [hw]; rfl)
    by_cases hk : k = "url".data
    · simp [querifyStep, hs, hk, hw]
    · simp [querifyStep, hs, hk, hw]

/-- A pair with key `url` overwrites the stored `url` value with its
value, whatever was stored before. -/
theorem querifyStep_url_set (acc : QueryMap) (kv v : List Char)
    (hs : splitFirst '=' kv = some ("url".data, v)) :
    (querifyStep acc kv).url? = some (String.mk v) := by
  simp [querifyStep, hs]

/-- A pair with key `width` overwrites the stored `width` value with its
value, whatever was stored before. -/
theorem querifyStep_width_set (acc : QueryMap) (kv v : List Char)
    (hs : splitFirst '=' kv = some ("width".data, v)) :
    (querifyStep acc kv).width? = some (String.mk v) := by
  have hne : ¬"width".data = "url".data := by decide
  simp [querifyStep, hs, hne]

/-- Folding over pairs none of which carries the key `url` preserves the
stored `url` value. -/
theorem foldl_url_frame (ps : List (List Char)) (acc : QueryMap)
    (h : ∀ kv ∈ ps, (splitFirst '=' kv).map Prod.fst ≠ some "url".data) :
    (ps.foldl querifyStep acc).url? = acc.url? := by
  induction ps generalizing acc with
  | nil => rfl
  | cons kv ps ih =>
    rw [List.foldl_cons]
    exact (ih (querifyStep acc kv)
        (fun kv' hkv' => h kv' (List.mem_cons_of_mem kv hkv'))).trans
      (querifyStep_url_frame acc kv (h kv (List.mem_cons_self kv ps)))

/-- Folding over pairs none of which carries the key `width` preserves
the stored `width` value. -/
theorem foldl_width_frame (ps : List (List Char)) (acc : QueryMap)
    (h : ∀ kv ∈ ps, (splitFirst '=' kv).map Prod.fst ≠ some "width".data) :
    (ps.foldl querifyStep acc).width? = acc.width? := by
  induction ps generalizing acc with
  | nil => rfl
  | cons kv ps ih =>
    rw [List.foldl_cons]
    exact (ih (querifyStep acc kv)
        (fun kv' hkv' => h kv' (List.mem_cons_of_mem kv hkv'))).trans
      (querifyStep_width_frame acc kv (h kv (List.mem_cons_self kv ps)))

/-- Claim C10: when a recognized key occurs more than once, the last
occurrence wins.  For every query string whose pair list (the split on
`&`) decomposes as `ps₁ ++ kv :: ps₂` where `kv` carries the key `url`
(resp. `width`) and no pair of `ps₂` carries that key — i.e. `kv` is the
last occurrence of the key, with arbitrary pairs before and after it —
the stored value is `kv`'s value; earlier occurrences, which can only
lie in `ps₁`, are silently overwritten. -/
theorem c10_last_occurrence_wins :
    (∀ (q : String) (kv v : List Char) (ps₁ ps₂ : List (List Char)),
      splitOnChar '&' q.data = ps₁ ++ kv :: ps₂ →
      splitFirst '=' kv = some ("url".data, v) →
      (∀ kv' ∈ ps₂, (splitFirst '=' kv').map Prod.fst ≠ some "url".data) →
      (querify q).url? = some (String.mk v)) ∧
    (∀ (q : String) (kv v : List Char) (ps₁ ps₂ : List (List Char)),
      splitOnChar '&' q.data = ps₁ ++ kv :: ps₂ →
      splitFirst '=' kv = some ("width".data, v) →
      (∀ kv' ∈ ps₂, (splitFirst '=' kv').map Prod.fst ≠ some "width".data) →
      (querify q).width? = some (String.mk v)) := by
  constructor
  · intro q kv v ps₁ ps₂ hsplit hkv hafter
    rw [querify, hsplit, List.foldl_append, List.foldl_cons,
      foldl_url_frame ps₂ _ hafter]
    exact querifyStep_url_set _ kv v hkv
  · intro q kv v ps₁ ps₂ hsplit hkv hafter
    rw [querify, hsplit, List.foldl_append, List.foldl_cons,
      foldl_width_frame ps₂ _ hafter]
    exact querifyStep_width_set _ kv v hkv

theorem c10_last_occurrence_wins_witness :
    ((querify "url=a&url=b&width=9").url? = some (String.mk "b".data)) ∧
    ((querify "width=1&width=2&url=c").width? = some (String.mk "2".data)) :=
  ⟨c10_last_occurrence_wins.1 "url=a&url=b&width=9" "url=b".data "b".data
      ["url=a".data] ["width=9".data] rfl rfl (by decide),
   c10_last_occurrence_wins.2 "width=1&width=2&url=c" "width=2".data "2".data
      ["width=1".data] ["url=c".data] rfl rfl (by decide)⟩

/-- Claim C7: the router recognizes exactly one route, `GET /thumbnail`;
when the pipeline succeeds there it returns status 200 with the encoded
bytes as the body, and every other method/path combination returns
status 404 with an empty body. -/
theorem c7_routing (fetchDecode : String → Option Image)
    (encodePng : Image → List Nat) (req : HttpRequest) :
    (∀ q opts bytes, req.method = Method.GET → req.path = "/thumbnail" →
      req.query = some q → ThumbOptions.fromQuery q = some opts →
      handle_thumbnail fetchDecode encodePng opts = some bytes →
      router fetchDecode encodePng req
        = RouterOutcome.response 200 bytes) ∧
    (¬(req.method = Method.GET ∧ req.path = "/thumbnail") →
      router fetchDecode encodePng req
        = RouterOutcome.response 404 []) := by
  constructor
  · intro q opts bytes hm hp hq hopts hbytes
    simp [router, hm, hp, hq, hopts, hbytes]
  · intro hne
    rw [router, if_neg hne]

/-- A concrete 4×4 test image. -/
def imgEx : Image := ⟨4, 4, fun x y => (x, y, 0, 255)⟩

theorem c7_routing_witness :
    (router (fun _ => some imgEx) (fun _ => [1, 2, 3])
        ⟨Method.GET, "/thumbnail", some "url=a&width=2"⟩
      = RouterOutcome.response 200 [1, 2, 3]) ∧
    (router (fun _ => some imgEx) (fun _ => [1, 2, 3])
        ⟨Method.POST, "/thumbnail", none⟩
      = RouterOutcome.response 404 []) :=
  ⟨(c7_routing (fun _ => some imgEx) (fun _ => [1, 2, 3])
      ⟨Method.GET, "/thumbnail", some "url=a&width=2"⟩).1
      "url=a&width=2" { url := "a", width := 2 } [1, 2, 3]
      rfl rfl rfl (by decide) rfl,
   (c7_routing (fun _ => some imgEx) (fun _ => [1, 2, 3])
      ⟨Method.POST, "/thumbnail", none⟩).2 (by decide)⟩

/-- Claim C8: a GET to `/thumbnail` whose URI carries no query string is
fatal — the `unwrap` on the missing query aborts the handling task and
no structured response is produced. -/
theorem c8_missing_query_fatal (fetchDecode : String → Option Image)
    (encodePng : Image → List Nat) (req : HttpRequest)
    (hm : req.method = Method.GET) (hp : req.path = "/thumbnail")
    (hq : req.query = none) :
    router fetchDecode encodePng req = RouterOutcome.fatal := by
  simp [router, hm, hp, hq]

theorem c8_missing_query_fatal_witness :
    router (fun _ => none) (fun _ => [])
      ⟨Method.GET, "/thumbnail", none⟩ = RouterOutcome.fatal :=
  c8_missing_query_fatal (fun _ => none) (fun _ => [])
    ⟨Method.GET, "/thumbnail", none⟩ rfl rfl rfl

/-- Claim C9: resizing an already-resized image to the same target width
is a no-op: the ratio is `w / w = 1`, the height `h / 1 = h`, and the
nearest-neighbor resample at unchanged dimensions leaves every in-range
pixel unchanged. -/
theorem c9_idempotent (img : Image) (w : Nat) (j : Image)
    (hj : resizeStage img w = some j) :
    ∃ j', resizeStage j w = some j' ∧ j'.width = j.width ∧
      j'.height = j.height ∧
      ∀ x, x < j.width → ∀ y, y < j.height →
        j'.pixelAt x y = j.pixelAt x y := by
  have hw : w ≠ 0 := by
    intro h0
    rw [h0] at hj
    simp [resizeStage] at hj
  have hr : img.width / w ≠ 0 := by
    intro h0
    simp [resizeStage, hw, h0] at hj
  have hjw : j.width = w := by
    simp only [resizeStage, if_neg hw, if_neg hr, Option.some.injEq] at hj
    rw [← hj]
    rfl
  have hdiv : j.width / w = 1 := by
    rw [hjw]
    exact Nat.div_self (Nat.pos_of_ne_zero hw)
  refine ⟨resizeNearest j w (j.height / (j.width / w)), ?_, ?_, ?_, ?_⟩
  · simp [resizeStage, hw, hdiv]
  · show w = j.width
    exact hjw.symm
  · show j.height / (j.width / w) = j.height
    rw [hdiv, Nat.div_one]
  · intro x hx y hy
    show j.pixelAt (x * j.width / w)
        (y * j.height / (j.height / (j.width / w))) = j.pixelAt x y
    rw [hdiv, Nat.div_one, hjw,
      Nat.mul_div_cancel x (Nat.pos_of_ne_zero hw),
      Nat.mul_div_cancel y (Nat.lt_of_le_of_lt (Nat.zero_le y) hy)]

theorem c9_idempotent_witness :
    ∃ j', resizeStage (resizeNearest imgEx 2 2) 2 = some j' ∧
      j'.width = (resizeNearest imgEx 2 2).width ∧
      j'.height = (resizeNearest imgEx 2 2).height ∧
      ∀ x, x < (resizeNearest imgEx 2 2).width →
        ∀ y, y < (resizeNearest imgEx 2 2).height →
          j'.pixelAt x y = (resizeNearest imgEx 2 2).pixelAt x y :=
  c9_idempotent imgEx 2 (resizeNearest imgEx 2 2) rfl
